import Mathlib

/-!
Shallow embedding of `set_rb_date_added_from_sc.py`: the title normalizer,
the likes-index builder, the row matcher and the timestamp assigner, together
with proofs of the specified properties.

Strings are modelled as lists of Unicode code points (`List Nat`); instants
are modelled as integer microseconds since an arbitrary epoch (Python
`datetime` arithmetic on `timedelta(seconds=...)` is exact integer-microsecond
arithmetic in the ranges involved, and the `microsecond` field is the value
modulo 1 000 000).
-/

namespace SetRbDateAdded

/-- Code points of a string literal, the bridge for concrete test data. -/
def codes (s : String) : List Nat :=
  s.toList.map Char.toNat

/-- Python `str.split()` whitespace, restricted to the ASCII whitespace
code points (space, tab, LF, VT, FF, CR). -/
def isSpaceB (n : Nat) : Bool :=
  n == 32 || n == 9 || n == 10 || n == 11 || n == 12 || n == 13

/-- Model of `unicodedata.normalize("NFKC", ·)` restricted to the code points
this program distinguishes: NFKC maps the full-width colon U+FF1A (65306) to
":" (58) and is the identity on the ASCII range. -/
def nfkcChar (n : Nat) : Nat :=
  if n = 65306 then 58 else n

/-- The explicit `text.replace("：", ":")` step (U+FF1A is 65306, ":" is 58). -/
def replaceColonChar (n : Nat) : Nat :=
  if n = 65306 then 58 else n

/-- Model of Python `str.lower()` restricted to the code points this program
distinguishes: ASCII upper-case letters map down by 32, all else unchanged. -/
def lowerChar (n : Nat) : Nat :=
  if 65 ≤ n ∧ n ≤ 90 then n + 32 else n

/-- Python `str.strip()`: drop leading and trailing whitespace. -/
def stripWs (l : List Nat) : List Nat :=
  (((l.dropWhile isSpaceB).reverse.dropWhile isSpaceB)).reverse

/-- Worker for `splitWs`; `cur` is the reversed current word. -/
def splitWsAux (cur : List Nat) : List Nat → List (List Nat)
  | [] => if cur = [] then [] else [cur.reverse]
  | c :: cs =>
    if isSpaceB c then
      if cur = [] then splitWsAux [] cs else cur.reverse :: splitWsAux [] cs
    else
      splitWsAux (c :: cur) cs

/-- Python `str.split()` with no separator: maximal runs of non-whitespace. -/
def splitWs (l : List Nat) : List (List Nat) :=
  splitWsAux [] l

/-- Python `" ".join(words)`. -/
def joinWords : List (List Nat) → List Nat
  | [] => []
  | [w] => w
  | w :: ws => w ++ 32 :: joinWords ws

/-- Function `normalize_title` from the source: NFKC, replace the full-width colon,
then `" ".join(text.lower().strip().split())`.  An absent title is the empty
list (Python `raw or ""`). -/
def normalize_title (raw : List Nat) : List Nat :=
  let text := raw.map nfkcChar
  let text := text.map replaceColonChar
  joinWords (splitWs (stripWs (text.map lowerChar)))

/-- The composite per-character action of `normalize_title` before the
whitespace pass: NFKC, colon replacement, lower-casing. -/
def gChar (n : Nat) : Nat :=
  lowerChar (replaceColonChar (nfkcChar n))

/-- Function `ensure_millis_precision`: if the instant falls on a whole second
(`dt.microsecond == 0`), attach a fixed `.900000` fraction
(`dt.replace(microsecond=900_000)`), else return it unchanged. -/
def ensure_millis_precision (dt : Int) : Int :=
  if dt % 1000000 = 0 then dt + 900000 else dt

/-- Calendar helper for concrete instants: microseconds of
`day` days + `h:m:s.us`, with day 0 chosen as 2023-12-31 so that day 1 is
2024-01-01. -/
def mkInstant (day h m s us : Int) : Int :=
  (((day * 24 + h) * 60 + m) * 60 + s) * 1000000 + us

/-- Structure `LikeEntry` from the source: one item of the SoundCloud likes list
(`index` is the 1-based rank). -/
structure LikeEntry where
  index : Int
  sc_id : List Nat
  title : List Nat
  url : List Nat
deriving DecidableEq

/-- The fields of a `djmdContent` row the program reads: `Title` (may be
absent or empty), `FolderPath` and `created_at` (may be absent). -/
structure DjmdContent where
  Title : Option (List Nat)
  FolderPath : List Nat
  created_at : Option Int
deriving DecidableEq

/-- Structure `Match` from the source. -/
structure MatchRec where
  row : DjmdContent
  file_path : List Nat
  local_title : List Nat
  sc_index : Int
  sc_id : List Nat
  sc_title : List Nat
  sc_url : List Nat
  match_mode : List Nat
  old_created_at : Option Int
  new_created_at : Option Int := none
deriving DecidableEq

/-- Structure `Unmatched` from the source. -/
structure UnmatchedRec where
  file_path : List Nat
  local_title : List Nat
  reason : List Nat
deriving DecidableEq

/-- Insertion-ordered association list modelling a Python `dict` keyed by
strings. -/
abbrev LikesMap := List (List Nat × LikeEntry)

/-- Python `d[k]` / `k in d` lookup: the binding for `k`, if any. -/
def dict_get (d : LikesMap) (k : List Nat) : Option LikeEntry :=
  (d.find? (fun kv => kv.1 == k)).map (·.2)

/-- Python `dict.setdefault(k, v)`: bind `k` to `v` only if `k` is absent
(new keys go at the end, in insertion order). -/
def setdefault (d : LikesMap) (k : List Nat) (v : LikeEntry) : LikesMap :=
  if (dict_get d k).isSome then d else d ++ [(k, v)]

/-- One iteration of the loop in `build_likes_maps`. -/
def build_step (maps : LikesMap × LikesMap) (item : LikeEntry) : LikesMap × LikesMap :=
  let by_exact := setdefault maps.1 item.title item
  let norm := normalize_title item.title
  let by_norm := if norm = [] then maps.2 else setdefault maps.2 norm item
  (by_exact, by_norm)

/-- Function `build_likes_maps` from the source: fold the likes in order, populating
`by_exact` keyed by the literal title and `by_norm` keyed by the normalized
title (skipped when the normalized title is empty); `setdefault` keeps the
first binding. -/
def build_likes_maps (likes : List LikeEntry) : LikesMap × LikesMap :=
  likes.foldl build_step ([], [])

/-- The guard at the end of `fetch_likes`:
`if not likes: raise RuntimeError("No likes entries found ...")`. -/
def fetch_likes_empty_check (likes : List LikeEntry) : Except (List Nat) (List LikeEntry) :=
  if likes.isEmpty then Except.error (codes "No likes entries found") else Except.ok likes

/-- The reference-index stage of `main`: `fetch_likes` surfaces the
empty-likes precondition, then `build_likes_maps` builds the two lookup
structures. -/
def build_reference_index (likes : List LikeEntry) : Except (List Nat) (LikesMap × LikesMap) :=
  match fetch_likes_empty_check likes with
  | Except.error e => Except.error e
  | Except.ok ls => Except.ok (build_likes_maps ls)

/-- Python `Path(p).name` for a path string with no trailing slash: the part
after the last "/" (47). -/
def path_name (p : List Nat) : List Nat :=
  (p.reverse.takeWhile (fun c => c != 47)).reverse

/-- Index of the last occurrence of "." (46), if any. -/
def lastDotIndex : List Nat → Option Nat
  | [] => none
  | c :: cs =>
    match lastDotIndex cs with
    | some i => some (i + 1)
    | none => if c = 46 then some 0 else none

/-- Python `Path(p).stem`: the final component without its suffix; a dot at
position 0 or at the very end does not start a suffix. -/
def path_stem (p : List Nat) : List Nat :=
  let name := path_name p
  match lastDotIndex name with
  | some i => if 0 < i ∧ i < name.length - 1 then name.take i else name
  | none => name

/-- Function `find_local_title` from the source: the row's `Title` when truthy
(present and non-empty), else the stem of `FolderPath`. -/
def find_local_title (row : DjmdContent) : List Nat :=
  match row.Title with
  | some t => if t = [] then path_stem row.FolderPath else t
  | none => path_stem row.FolderPath

/-- The candidate list of `match_rows_to_likes`:
`[local_title, basename_stem]`. -/
def match_candidates (row : DjmdContent) : List (List Nat) :=
  [find_local_title row, path_stem row.FolderPath]

/-- The first candidate loop: scan `candidates` against `by_exact`, first
hit wins. -/
def first_exact_match (cands : List (List Nat)) (by_exact : LikesMap) : Option LikeEntry :=
  match cands with
  | [] => none
  | c :: rest =>
    match dict_get by_exact c with
    | some item => some item
    | none => first_exact_match rest by_exact

/-- The second candidate loop: scan `candidates`, each passed through
`normalize_title`, against `by_norm`; empty normalized keys are skipped
(`if norm and norm in by_norm`). -/
def first_norm_match (cands : List (List Nat)) (by_norm : LikesMap) : Option LikeEntry :=
  match cands with
  | [] => none
  | c :: rest =>
    let norm := normalize_title c
    if norm = [] then first_norm_match rest by_norm
    else
      match dict_get by_norm norm with
      | some item => some item
      | none => first_norm_match rest by_norm

/-- The loop body of `match_rows_to_likes` for one row: exact pass entirely
before normalized pass, otherwise `Unmatched` with reason
"not-found-in-likes". -/
def match_row (row : DjmdContent) (by_exact by_norm : LikesMap) : Sum MatchRec UnmatchedRec :=
  let file_path := row.FolderPath
  let local_title := find_local_title row
  match first_exact_match (match_candidates row) by_exact with
  | some item =>
    Sum.inl
      { row := row, file_path := file_path, local_title := local_title,
        sc_index := item.index, sc_id := item.sc_id, sc_title := item.title,
        sc_url := item.url, match_mode := codes "exact",
        old_created_at := row.created_at }
  | none =>
    match first_norm_match (match_candidates row) by_norm with
    | some item =>
      Sum.inl
        { row := row, file_path := file_path, local_title := local_title,
          sc_index := item.index, sc_id := item.sc_id, sc_title := item.title,
          sc_url := item.url, match_mode := codes "normalized",
          old_created_at := row.created_at }
    | none =>
      Sum.inr { file_path := file_path, local_title := local_title,
                reason := codes "not-found-in-likes" }

/-- Function `match_rows_to_likes` from the source: one outcome per row, appended to
the matched or the unmatched list in row order. -/
def match_rows_to_likes (rows : List DjmdContent) (by_exact by_norm : LikesMap) :
    List MatchRec × List UnmatchedRec :=
  match rows with
  | [] => ([], [])
  | row :: rest =>
    let res := match_rows_to_likes rest by_exact by_norm
    match match_row row by_exact by_norm with
    | Sum.inl m => (m :: res.1, res.2)
    | Sum.inr u => (res.1, u :: res.2)

/-- The sort key relation of `sorted(matched, key=lambda x: x.sc_index)`;
`List.insertionSort` with this relation is stable, like Python `sorted`. -/
def scLe (a b : MatchRec) : Prop := a.sc_index ≤ b.sc_index

instance : DecidableRel scLe := fun a b => inferInstanceAs (Decidable (a.sc_index ≤ b.sc_index))

instance : IsTotal MatchRec scLe := ⟨fun a b => Int.le_total a.sc_index b.sc_index⟩

instance : IsTrans MatchRec scLe := ⟨fun _ _ _ h1 h2 => Int.le_trans h1 h2⟩

/-- Python `sorted(matched, key=lambda x: x.sc_index)` (a stable sort). -/
def sort_by_sc_index (matched : List MatchRec) : List MatchRec :=
  List.insertionSort scLe matched

/-- The assignment loop of `main` (lines 342-351): fix the anchor's
sub-second part, sort the matched records by `sc_index`, and give the record
at 0-based position `pos` the timestamp
`ensure_millis_precision(anchor - timedelta(seconds=offset_steps * step_seconds))`
where `offset_steps` is `sc_index - 1` with `--use-like-index-offset` and
`pos` otherwise. -/
def assign_new_created_at (matched : List MatchRec) (anchor : Int) (step_seconds : Int)
    (use_like_index_offset : Bool) : List MatchRec :=
  let anchor' := ensure_millis_precision anchor
  let matched_sorted := sort_by_sc_index matched
  matched_sorted.enum.map
    (fun pm =>
      let offset_steps : Int := if use_like_index_offset then pm.2.sc_index - 1 else (pm.1 : Int)
      { pm.2 with
        new_created_at :=
          some (ensure_millis_precision (anchor' - offset_steps * step_seconds * 1000000)) })

/-- Anchor resolution in `main` (lines 336-341), with `parse_anchor_datetime`
abstracted as an already-parsed optional instant: an override is used as is;
otherwise `max(m.old_created_at for m in matched if m.old_created_at is not None)`,
which raises `ValueError` on an empty sequence.  The subsequent
`if anchor is None: anchor = datetime.now()` in the source can never fire,
because `max` never returns `None`: it is translated by the `Except.ok`
branch below. -/
def resolve_anchor (anchor_override : Option Int) (matched : List MatchRec) :
    Except (List Nat) Int :=
  match anchor_override with
  | some a => Except.ok a
  | none =>
    match matched.filterMap (fun m => m.old_created_at) with
    | [] => Except.error (codes "max() arg is an empty sequence")
    | t :: ts => Except.ok (ts.foldl max t)

/-! Concrete data for the end-to-end example and for witnesses. -/

/-- The reference list `[(1,"A"),(2,"B"),(3,"C"),(4,"D")]`. -/
def demoLikes : List LikeEntry :=
  [ { index := 1, sc_id := codes "", title := codes "A", url := codes "" },
    { index := 2, sc_id := codes "", title := codes "B", url := codes "" },
    { index := 3, sc_id := codes "", title := codes "C", url := codes "" },
    { index := 4, sc_id := codes "", title := codes "D", url := codes "" } ]

/-- Local records with titles "b", "A", "d", "Z". -/
def demoRows : List DjmdContent :=
  [ { Title := some (codes "b"), FolderPath := codes "/m/t1.mp3", created_at := none },
    { Title := some (codes "A"), FolderPath := codes "/m/t2.mp3", created_at := none },
    { Title := some (codes "d"), FolderPath := codes "/m/t3.mp3", created_at := none },
    { Title := some (codes "Z"), FolderPath := codes "/m/t4.mp3", created_at := none } ]

/-- The anchor `2024-01-01T00:00:00` (day 0 of `mkInstant` is 2023-12-31). -/
def demoAnchor : Int := mkInstant 1 0 0 0 0

def demoMaps : LikesMap × LikesMap := build_likes_maps demoLikes

def demoMatched : List MatchRec := (match_rows_to_likes demoRows demoMaps.1 demoMaps.2).1

/-- The local record titled "A" of the example. -/
def demoRowA : DjmdContent :=
  { Title := some (codes "A"), FolderPath := codes "/m/t2.mp3", created_at := none }

/-- The local record titled "Z" of the example (unmatched). -/
def demoRowZ : DjmdContent :=
  { Title := some (codes "Z"), FolderPath := codes "/m/t4.mp3", created_at := none }

/-- A matched record with a given rank and title, and no stored timestamp. -/
def mkDemoMatch (idx : Int) (title : List Nat) : MatchRec :=
  { row := { Title := some title, FolderPath := codes "/m/x.mp3", created_at := none },
    file_path := codes "/m/x.mp3", local_title := title, sc_index := idx,
    sc_id := codes "", sc_title := title, sc_url := codes "",
    match_mode := codes "exact", old_created_at := none }

example : codes "ab:" = [97, 98, 58] := by decide

example : normalize_title (codes "Foo：Bar") = codes "foo:bar" := by decide

example : normalize_title (codes "  FOO:  BAR ") = codes "foo: bar" := by decide

example : ensure_millis_precision (mkInstant 1 0 0 0 0) = mkInstant 1 0 0 0 900000 := by decide

example :
    demoMatched.map (fun m => (m.local_title, m.sc_title, m.match_mode)) =
      [ (codes "b", codes "B", codes "normalized"),
        (codes "A", codes "A", codes "exact"),
        (codes "d", codes "D", codes "normalized") ] := by decide

example :
    (match_rows_to_likes demoRows demoMaps.1 demoMaps.2).2.map (fun u => u.local_title) =
      [codes "Z"] := by decide

example :
    (assign_new_created_at demoMatched demoAnchor 1 false).map
        (fun m => (m.sc_title, m.new_created_at)) =
      [ (codes "A", some (mkInstant 1 0 0 0 900000)),
        (codes "B", some (mkInstant 0 23 59 59 900000)),
        (codes "D", some (mkInstant 0 23 59 58 900000)) ] := by decide

example :
    (assign_new_created_at demoMatched demoAnchor 1 true).map
        (fun m => (m.sc_title, m.new_created_at)) =
      [ (codes "A", some (mkInstant 1 0 0 0 900000)),
        (codes "B", some (mkInstant 0 23 59 59 900000)),
        (codes "D", some (mkInstant 0 23 59 57 900000)) ] := by decide

/-! Arithmetic facts about `ensure_millis_precision`. -/

theorem ensure_millis_emod (a : Int) : ensure_millis_precision a % 1000000 ≠ 0 := by
  unfold ensure_millis_precision
  split <;> omega

theorem ensure_millis_idem (a : Int) :
    ensure_millis_precision (ensure_millis_precision a) = ensure_millis_precision a := by
  have h := ensure_millis_emod a
  unfold ensure_millis_precision
  split
  · omega
  · rfl

theorem ensure_millis_sub_whole_seconds (a k : Int) :
    ensure_millis_precision (ensure_millis_precision a - k * 1000000) =
      ensure_millis_precision a - k * 1000000 := by
  have h := ensure_millis_emod a
  generalize ensure_millis_precision a = x at h ⊢
  unfold ensure_millis_precision
  rw [if_neg (show ¬(x - k * 1000000) % 1000000 = 0 by omega)]

/-! Lookup facts about the association-list dictionaries. -/

theorem dict_get_append (d1 d2 : LikesMap) (k : List Nat) :
    dict_get (d1 ++ d2) k = (dict_get d1 k).or (dict_get d2 k) := by
  unfold dict_get
  rw [List.find?_append]
  cases List.find? (fun kv => kv.1 == k) d1 <;> simp

theorem dict_get_singleton (k0 k : List Nat) (v : LikeEntry) :
    dict_get [(k0, v)] k = if k0 = k then some v else none := by
  unfold dict_get
  by_cases h : k0 = k <;> simp [List.find?_cons, h]

theorem dict_get_setdefault (d : LikesMap) (k0 k : List Nat) (v : LikeEntry) :
    dict_get (setdefault d k0 v) k = (dict_get d k).or (if k0 = k then some v else none) := by
  unfold setdefault
  split
  · rename_i hsome
    cases hk : dict_get d k with
    | some w => simp
    | none =>
      by_cases hkk : k0 = k
      · subst hkk; rw [hk] at hsome; simp at hsome
      · simp [hkk]
  · rw [dict_get_append, dict_get_singleton]

theorem foldl_build_exact (likes : List LikeEntry) (acc : LikesMap × LikesMap) (k : List Nat) :
    dict_get (likes.foldl build_step acc).1 k =
      (dict_get acc.1 k).or (likes.find? (fun e => e.title == k)) := by
  induction likes generalizing acc with
  | nil => simp
  | cons e ls ih =>
    rw [List.foldl_cons, ih]
    have hstep : (build_step acc e).1 = setdefault acc.1 e.title e := rfl
    rw [hstep, dict_get_setdefault, Option.or_assoc]
    by_cases h : e.title = k
    · rw [List.find?_cons_of_pos _ (by simp [h]), if_pos h]
      cases List.find? (fun e => e.title == k) ls <;> simp
    · rw [List.find?_cons_of_neg _ (by simp [h]), if_neg h, Option.none_or]

theorem foldl_build_norm (likes : List LikeEntry) (acc : LikesMap × LikesMap) (k : List Nat)
    (hk : k ≠ []) :
    dict_get (likes.foldl build_step acc).2 k =
      (dict_get acc.2 k).or (likes.find? (fun e => normalize_title e.title == k)) := by
  induction likes generalizing acc with
  | nil => simp
  | cons e ls ih =>
    rw [List.foldl_cons, ih]
    have hstep : (build_step acc e).2 =
        if normalize_title e.title = [] then acc.2
        else setdefault acc.2 (normalize_title e.title) e := rfl
    rw [hstep]
    by_cases hn : normalize_title e.title = []
    · have hne : ¬(normalize_title e.title = k) := fun h => hk (h ▸ hn)
      rw [if_pos hn, List.find?_cons_of_neg _ (by simp [hne])]
    · rw [if_neg hn, dict_get_setdefault, Option.or_assoc]
      by_cases h : normalize_title e.title = k
      · rw [List.find?_cons_of_pos _ (by simp [h]), if_pos h]
        cases List.find? (fun e => normalize_title e.title == k) ls <;> simp
      · rw [List.find?_cons_of_neg _ (by simp [h]), if_neg h, Option.none_or]

theorem foldl_build_norm_nil (likes : List LikeEntry) (acc : LikesMap × LikesMap)
    (hacc : dict_get acc.2 [] = none) :
    dict_get (likes.foldl build_step acc).2 [] = none := by
  induction likes generalizing acc with
  | nil => exact hacc
  | cons e ls ih =>
    rw [List.foldl_cons]
    refine ih _ ?_
    have hstep : (build_step acc e).2 =
        if normalize_title e.title = [] then acc.2
        else setdefault acc.2 (normalize_title e.title) e := rfl
    rw [hstep]
    by_cases hn : normalize_title e.title = []
    · simpa [hn]
    · rw [if_neg hn, dict_get_setdefault, hacc, Option.none_or, if_neg hn]

/-! Characterization of the two candidate loops. -/

theorem first_exact_match_eq_findSome (cands : List (List Nat)) (ex : LikesMap) :
    first_exact_match cands ex = cands.findSome? (dict_get ex) := by
  induction cands with
  | nil => rfl
  | cons c rest ih =>
    rw [first_exact_match, List.findSome?_cons]
    cases dict_get ex c <;> simp [ih]

theorem first_norm_match_eq_findSome (cands : List (List Nat)) (nm : LikesMap) :
    first_norm_match cands nm =
      cands.findSome?
        (fun c => if normalize_title c = [] then none else dict_get nm (normalize_title c)) := by
  induction cands with
  | nil => rfl
  | cons c rest ih =>
    rw [first_norm_match, List.findSome?_cons]
    by_cases hn : normalize_title c = []
    · simp only [hn, if_pos rfl]
      simpa [hn] using ih
    · simp only [if_neg hn]
      cases dict_get nm (normalize_title c) <;> simp [ih]

theorem findSome?_isSome_of_exists {α β : Type} (f : α → Option β) (l : List α)
    (h : ∃ c ∈ l, (f c).isSome) : ∃ b, l.findSome? f = some b := by
  induction l with
  | nil => simp at h
  | cons c rest ih =>
    rw [List.findSome?_cons]
    cases hc : f c with
    | some b => exact ⟨b, rfl⟩
    | none =>
      rcases h with ⟨c', hc', hsome⟩
      rcases List.mem_cons.mp hc' with h1 | h1
      · subst h1; rw [hc] at hsome; simp at hsome
      · exact ih ⟨c', h1, hsome⟩

/-! The matched/unmatched partition produced by `match_rows_to_likes`. -/

theorem match_rows_to_likes_fst (rows : List DjmdContent) (ex nm : LikesMap) :
    (match_rows_to_likes rows ex nm).1 =
      rows.filterMap (fun r => (match_row r ex nm).getLeft?) := by
  induction rows with
  | nil => rfl
  | cons row rest ih =>
    rw [match_rows_to_likes, List.filterMap_cons]
    cases h : match_row row ex nm <;> simp [h, ih]

theorem match_rows_to_likes_snd (rows : List DjmdContent) (ex nm : LikesMap) :
    (match_rows_to_likes rows ex nm).2 =
      rows.filterMap (fun r => (match_row r ex nm).getRight?) := by
  induction rows with
  | nil => rfl
  | cons row rest ih =>
    rw [match_rows_to_likes, List.filterMap_cons]
    cases h : match_row row ex nm <;> simp [h, ih]

theorem match_rows_to_likes_length (rows : List DjmdContent) (ex nm : LikesMap) :
    (match_rows_to_likes rows ex nm).1.length + (match_rows_to_likes rows ex nm).2.length =
      rows.length := by
  induction rows with
  | nil => rfl
  | cons row rest ih =>
    rw [match_rows_to_likes]
    cases h : match_row row ex nm <;> simp [h] <;> omega

theorem match_row_unmatched_reason (row : DjmdContent) (ex nm : LikesMap) (u : UnmatchedRec)
    (h : match_row row ex nm = Sum.inr u) : u.reason = codes "not-found-in-likes" := by
  unfold match_row at h
  cases h1 : first_exact_match (match_candidates row) ex with
  | some item => rw [h1] at h; simp at h
  | none =>
    rw [h1] at h
    cases h2 : first_norm_match (match_candidates row) nm with
    | some item => rw [h2] at h; simp at h
    | none =>
      rw [h2] at h
      cases h
      rfl

/-! Facts about the stable sort and the assignment loop. -/

theorem sort_by_sc_index_sorted (l : List MatchRec) : List.Pairwise scLe (sort_by_sc_index l) :=
  List.sorted_insertionSort scLe l

theorem sort_by_sc_index_eq_self {l : List MatchRec} (h : List.Pairwise scLe l) :
    sort_by_sc_index l = l :=
  List.Sorted.insertionSort_eq h

theorem sort_by_sc_index_perm (l : List MatchRec) : (sort_by_sc_index l).Perm l :=
  List.perm_insertionSort scLe l

theorem assign_getElem (matched : List MatchRec) (anchor step : Int) (mode : Bool) (i : Nat) :
    (assign_new_created_at matched anchor step mode)[i]? =
      ((sort_by_sc_index matched)[i]?).map
        (fun m =>
          { m with
            new_created_at :=
              some (ensure_millis_precision
                (ensure_millis_precision anchor -
                  (if mode then m.sc_index - 1 else (i : Int)) * step * 1000000)) }) := by
  unfold assign_new_created_at
  simp only [List.getElem?_map, List.getElem?_enum]
  cases (sort_by_sc_index matched)[i]? <;> rfl

/-! The whitespace pass: words of `splitWs` are non-empty and whitespace-free,
splitting a join recovers the words, and `stripWs` fixes a join. -/

theorem gChar_gChar (n : Nat) : gChar (gChar n) = gChar n := by
  unfold gChar lowerChar replaceColonChar nfkcChar
  split_ifs <;> omega

theorem splitWsAux_nil (cur : List Nat) :
    splitWsAux cur [] = if cur = [] then [] else [cur.reverse] := rfl

theorem splitWsAux_cons (cur : List Nat) (c : Nat) (cs : List Nat) :
    splitWsAux cur (c :: cs) =
      if isSpaceB c then
        (if cur = [] then splitWsAux [] cs else cur.reverse :: splitWsAux [] cs)
      else splitWsAux (c :: cur) cs := rfl

theorem splitWsAux_words (l : List Nat) :
    ∀ cur, (∀ c ∈ cur, isSpaceB c = false) →
      ∀ w ∈ splitWsAux cur l, w ≠ [] ∧ ∀ c ∈ w, isSpaceB c = false := by
  induction l with
  | nil =>
    intro cur hcur w hw
    unfold splitWsAux at hw
    split at hw
    · simp at hw
    · rename_i hne
      simp only [List.mem_singleton] at hw
      subst hw
      exact ⟨by simpa using hne, fun c hc => hcur c (List.mem_reverse.mp hc)⟩
  | cons a as ih =>
    intro cur hcur w hw
    unfold splitWsAux at hw
    split at hw
    · split at hw
      · exact ih [] (by simp) w hw
      · rename_i hne
        rcases List.mem_cons.mp hw with h1 | h1
        · subst h1
          exact ⟨by simpa using hne, fun c hc => hcur c (List.mem_reverse.mp hc)⟩
        · exact ih [] (by simp) w h1
    · rename_i hsp
      refine ih (a :: cur) ?_ w hw
      intro d hd
      rcases List.mem_cons.mp hd with h1 | h1
      · subst h1; simpa using hsp
      · exact hcur d h1

theorem splitWsAux_chars (l : List Nat) :
    ∀ cur w c, w ∈ splitWsAux cur l → c ∈ w → c ∈ cur ∨ c ∈ l := by
  induction l with
  | nil =>
    intro cur w c hw hc
    unfold splitWsAux at hw
    split at hw
    · simp at hw
    · simp only [List.mem_singleton] at hw
      subst hw
      exact Or.inl (List.mem_reverse.mp hc)
  | cons a as ih =>
    intro cur w c hw hc
    unfold splitWsAux at hw
    split at hw
    · split at hw
      · rcases ih [] w c hw hc with h | h
        · simp at h
        · exact Or.inr (List.mem_cons_of_mem a h)
      · rcases List.mem_cons.mp hw with h1 | h1
        · subst h1; exact Or.inl (List.mem_reverse.mp hc)
        · rcases ih [] w c h1 hc with h | h
          · simp at h
          · exact Or.inr (List.mem_cons_of_mem a h)
    · rcases ih (a :: cur) w c hw hc with h | h
      · rcases List.mem_cons.mp h with h2 | h2
        · exact Or.inr (h2 ▸ List.mem_cons_self a as)
        · exact Or.inl h2
      · exact Or.inr (List.mem_cons_of_mem a h)

theorem stripWs_subset (l : List Nat) (c : Nat) (hc : c ∈ stripWs l) : c ∈ l := by
  unfold stripWs at hc
  have h1 := List.mem_reverse.mp hc
  have h2 := (List.dropWhile_sublist isSpaceB).mem h1
  have h3 := List.mem_reverse.mp h2
  exact (List.dropWhile_sublist isSpaceB).mem h3

theorem splitWsAux_word_chunk (w : List Nat) (hw : ∀ c ∈ w, isSpaceB c = false) :
    ∀ cur cs, splitWsAux cur (w ++ cs) = splitWsAux (w.reverse ++ cur) cs := by
  induction w with
  | nil => intro cur cs; simp
  | cons a w' ih =>
    intro cur cs
    have ha : isSpaceB a = false := hw a (List.mem_cons_self a w')
    rw [List.cons_append]
    have hstep : splitWsAux cur (a :: (w' ++ cs)) = splitWsAux (a :: cur) (w' ++ cs) := by
      rw [splitWsAux_cons, if_neg (by simp [ha])]
    rw [hstep, ih (fun c hc => hw c (List.mem_cons_of_mem a hc)) (a :: cur) cs]
    congr 1
    simp

theorem splitWs_join (ws : List (List Nat))
    (h : ∀ w ∈ ws, w ≠ [] ∧ ∀ c ∈ w, isSpaceB c = false) :
    splitWs (joinWords ws) = ws := by
  induction ws with
  | nil => rfl
  | cons w ws' ih =>
    obtain ⟨hne, hsp⟩ := h w (List.mem_cons_self _ _)
    cases ws' with
    | nil =>
      show splitWsAux [] (joinWords [w]) = [w]
      rw [show joinWords [w] = w ++ [] by simp [joinWords],
        splitWsAux_word_chunk w hsp [] []]
      have h1 : splitWsAux (w.reverse ++ []) [] = [(w.reverse ++ []).reverse] := by
        rw [splitWsAux_nil, if_neg (by simpa using hne)]
      rw [h1]
      simp
    | cons w2 ws'' =>
      show splitWsAux [] (joinWords (w :: w2 :: ws'')) = _
      rw [show joinWords (w :: w2 :: ws'') = w ++ 32 :: joinWords (w2 :: ws'') from rfl,
        splitWsAux_word_chunk w hsp [] _]
      have h2 : splitWsAux (w.reverse ++ []) (32 :: joinWords (w2 :: ws'')) =
          (w.reverse ++ []).reverse :: splitWsAux [] (joinWords (w2 :: ws'')) := by
        rw [splitWsAux_cons, if_pos (by decide), if_neg (by simpa using hne)]
      rw [h2]
      have htail : splitWsAux [] (joinWords (w2 :: ws'')) = w2 :: ws'' :=
        ih (fun x hx => h x (List.mem_cons_of_mem _ hx))
      rw [htail]
      simp

theorem joinWords_reverse_cons (ws : List (List Nat)) (hne : ws ≠ [])
    (h : ∀ w ∈ ws, w ≠ [] ∧ ∀ c ∈ w, isSpaceB c = false) :
    ∃ c t, (joinWords ws).reverse = c :: t ∧ isSpaceB c = false := by
  induction ws with
  | nil => exact absurd rfl hne
  | cons w ws' ih =>
    obtain ⟨hw, hsp⟩ := h w (List.mem_cons_self _ _)
    cases ws' with
    | nil =>
      cases hr : w.reverse with
      | nil => exact absurd (by simpa using hr) hw
      | cons c t =>
        refine ⟨c, t, by simpa [joinWords] using hr, ?_⟩
        exact hsp c (List.mem_reverse.mp (hr ▸ List.mem_cons_self c t))
    | cons w2 ws'' =>
      obtain ⟨c, t, hct, hc⟩ := ih (by simp) (fun x hx => h x (List.mem_cons_of_mem _ hx))
      refine ⟨c, t ++ 32 :: w.reverse, ?_, hc⟩
      rw [show joinWords (w :: w2 :: ws'') = w ++ 32 :: joinWords (w2 :: ws'') from rfl,
        List.reverse_append, List.reverse_cons, hct]
      simp

theorem stripWs_join (ws : List (List Nat))
    (h : ∀ w ∈ ws, w ≠ [] ∧ ∀ c ∈ w, isSpaceB c = false) :
    stripWs (joinWords ws) = joinWords ws := by
  cases ws with
  | nil => rfl
  | cons w ws' =>
    obtain ⟨hw, hsp⟩ := h w (List.mem_cons_self _ _)
    have hhead : ∃ c rest, joinWords (w :: ws') = c :: rest ∧ isSpaceB c = false := by
      cases hwc : w with
      | nil => exact absurd hwc hw
      | cons c t =>
        have hc : isSpaceB c = false := hsp c (hwc ▸ List.mem_cons_self c t)
        cases ws' with
        | nil => exact ⟨c, t, by simp [joinWords], hc⟩
        | cons w2 ws'' => exact ⟨c, t ++ 32 :: joinWords (w2 :: ws''), by simp [joinWords], hc⟩
    obtain ⟨c, rest, hcr, hc⟩ := hhead
    have hdrop : (joinWords (w :: ws')).dropWhile isSpaceB = joinWords (w :: ws') := by
      rw [hcr, List.dropWhile_cons]
      simp [hc]
    obtain ⟨c2, t2, hct2, hc2⟩ := joinWords_reverse_cons (w :: ws') (by simp) h
    unfold stripWs
    rw [hdrop, hct2, List.dropWhile_cons]
    simp only [hc2, Bool.false_eq_true, if_false]
    rw [← hct2, List.reverse_reverse]

theorem map_fixed_eq_self {f : Nat → Nat} {l : List Nat} (h : ∀ c ∈ l, f c = c) :
    l.map f = l := by
  induction l with
  | nil => rfl
  | cons a l ih =>
    rw [List.map_cons, h a (List.mem_cons_self _ _),
      ih (fun c hc => h c (List.mem_cons_of_mem _ hc))]

theorem joinWords_chars (ws : List (List Nat)) (c : Nat) (hc : c ∈ joinWords ws) :
    c = 32 ∨ ∃ w ∈ ws, c ∈ w := by
  induction ws with
  | nil => simp [joinWords] at hc
  | cons w ws' ih =>
    cases ws' with
    | nil => exact Or.inr ⟨w, List.mem_cons_self _ _, by simpa [joinWords] using hc⟩
    | cons w2 ws'' =>
      rw [show joinWords (w :: w2 :: ws'') = w ++ 32 :: joinWords (w2 :: ws'') from rfl] at hc
      rcases List.mem_append.mp hc with h1 | h1
      · exact Or.inr ⟨w, List.mem_cons_self _ _, h1⟩
      · rcases List.mem_cons.mp h1 with h2 | h2
        · exact Or.inl h2
        · rcases ih h2 with h3 | ⟨w', hw', hcw⟩
          · exact Or.inl h3
          · exact Or.inr ⟨w', List.mem_cons_of_mem _ hw', hcw⟩

theorem normalize_title_eq_g (raw : List Nat) :
    normalize_title raw = joinWords (splitWs (stripWs (raw.map gChar))) := by
  unfold normalize_title gChar
  simp [List.map_map, Function.comp_def]

theorem normalize_title_idem (raw : List Nat) :
    normalize_title (normalize_title raw) = normalize_title raw := by
  rw [normalize_title_eq_g raw, normalize_title_eq_g]
  have hwords : ∀ w ∈ splitWs (stripWs (raw.map gChar)),
      w ≠ [] ∧ ∀ c ∈ w, isSpaceB c = false :=
    splitWsAux_words _ [] (by simp)
  have hfix : ∀ c ∈ joinWords (splitWs (stripWs (raw.map gChar))), gChar c = c := by
    intro c hc
    rcases joinWords_chars _ c hc with h32 | ⟨w, hw, hcw⟩
    · subst h32; rfl
    · have h1 : c ∈ stripWs (raw.map gChar) := by
        rcases splitWsAux_chars _ [] w c hw hcw with h | h
        · simp at h
        · exact h
      obtain ⟨c0, _, rfl⟩ := List.mem_map.mp (stripWs_subset _ c h1)
      exact gChar_gChar c0
  rw [map_fixed_eq_self hfix, stripWs_join _ hwords, splitWs_join _ hwords]

/-! The claims. -/

/-- C3: on the reference list [(1,"A"),(2,"B"),(3,"C"),(4,"D")], local titles
["b","A","d","Z"], anchor 2024-01-01T00:00:00 and step 1 s, matching yields
"b"→B (normalized), "A"→A (exact), "d"→D (normalized), "Z" unmatched; dense
mode assigns A/B/D the timestamps 2024-01-01T00:00:00.900000,
2023-12-31T23:59:59.900000, 2023-12-31T23:59:58.900000; rankGap mode assigns
A and B the same values and D 2023-12-31T23:59:57.900000. -/
theorem claim_C3_end_to_end_example :
    demoMatched.map (fun m => (m.local_title, m.sc_title, m.match_mode)) =
        [ (codes "b", codes "B", codes "normalized"),
          (codes "A", codes "A", codes "exact"),
          (codes "d", codes "D", codes "normalized") ] ∧
    (match_rows_to_likes demoRows demoMaps.1 demoMaps.2).2.map (fun u => u.local_title) =
        [codes "Z"] ∧
    (assign_new_created_at demoMatched demoAnchor 1 false).map
        (fun m => (m.sc_title, m.new_created_at)) =
      [ (codes "A", some (mkInstant 1 0 0 0 900000)),
        (codes "B", some (mkInstant 0 23 59 59 900000)),
        (codes "D", some (mkInstant 0 23 59 58 900000)) ] ∧
    (assign_new_created_at demoMatched demoAnchor 1 true).map
        (fun m => (m.sc_title, m.new_created_at)) =
      [ (codes "A", some (mkInstant 1 0 0 0 900000)),
        (codes "B", some (mkInstant 0 23 59 59 900000)),
        (codes "D", some (mkInstant 0 23 59 57 900000)) ] :=
  ⟨by decide, by decide, by decide, by decide⟩

/-- C6: the exact map binds each literal title to the first (lowest-rank)
entry with that title, and the normalized map binds each non-empty normalized
key to the first entry with that key (empty keys are skipped); a later
duplicate never replaces an earlier binding. -/
theorem claim_C6_first_binding_wins (likes : List LikeEntry) (k : List Nat) :
    dict_get (build_likes_maps likes).1 k = likes.find? (fun e => e.title == k) ∧
    (k ≠ [] → dict_get (build_likes_maps likes).2 k =
      likes.find? (fun e => normalize_title e.title == k)) ∧
    dict_get (build_likes_maps likes).2 [] = none := by
  refine ⟨?_, fun hk => ?_, ?_⟩
  · rw [build_likes_maps, foldl_build_exact]
    rfl
  · rw [build_likes_maps, foldl_build_norm _ _ _ hk]
    rfl
  · exact foldl_build_norm_nil likes ([], []) rfl

/-- Witness for C6 at the demo reference list and the key "a". -/
theorem claim_C6_first_binding_wins_witness :
    dict_get (build_likes_maps demoLikes).2 (codes "a") =
      demoLikes.find? (fun e => normalize_title e.title == codes "a") :=
  (claim_C6_first_binding_wins demoLikes (codes "a")).2.1 (by decide)

/-- C7 counterexample: the three example strings do not all share one
normalized key — the internal whitespace run of "  FOO:  BAR " collapses to a
single space, so its key "foo: bar" differs from "foo:bar". -/
theorem claim_C7_counterexample :
    ¬ normalize_title (codes "  FOO:  BAR ") = normalize_title (codes "foo:bar") := by
  decide

/-- C7 (amended): `normalize_title` is idempotent; "Foo：Bar" and "foo:bar"
normalize to the same key, while "  FOO:  BAR " normalizes to "foo: bar"
(its whitespace runs collapse to single spaces rather than vanishing). -/
theorem claim_C7_idempotent_and_variants :
    (∀ x : List Nat, normalize_title (normalize_title x) = normalize_title x) ∧
    normalize_title (codes "Foo：Bar") = normalize_title (codes "foo:bar") ∧
    normalize_title (codes "  FOO:  BAR ") = codes "foo: bar" :=
  ⟨normalize_title_idem, by decide, by decide⟩

/-- C8 (code bug): with no override and a non-empty matched set in which no
record carries an existing timestamp, anchor resolution does not fall back to
the current time: the `max()` call raises `ValueError` on the empty filtered
sequence, and the `datetime.now()` fallback guarded by `anchor is None` is
unreachable. -/
theorem claim_C8_anchor_error_on_no_timestamps :
    resolve_anchor none [mkDemoMatch 1 (codes "A")] =
      Except.error (codes "max() arg is an empty sequence") := rfl

/-- C9: the reference-index stage fails with an error exactly when the input
sequence of reference entries is empty, before any matching can run. -/
theorem claim_C9_empty_reference_error_iff (likes : List LikeEntry) :
    (∃ e, build_reference_index likes = Except.error e) ↔ likes = [] := by
  cases likes with
  | nil => simp [build_reference_index, fetch_likes_empty_check]
  | cons a as => simp [build_reference_index, fetch_likes_empty_check]

/-- C4 counterexample: an unmatched outcome's reason is the literal
"not-found-in-likes", not "not-found" as the claim states. -/
theorem claim_C4_counterexample :
    (match_rows_to_likes [demoRowZ] demoMaps.1 demoMaps.2).2.map (fun u => u.reason) =
        [codes "not-found-in-likes"] ∧
    codes "not-found-in-likes" ≠ codes "not-found" :=
  ⟨by decide, by decide⟩

/-- C4 (amended): matching produces exactly one outcome per input record —
the matched and unmatched lists are the two filtered projections of the
per-row outcomes and their lengths add up to the input length — and a record
that hits neither map yields an `Unmatched` outcome whose reason is
"not-found-in-likes". -/
theorem claim_C4_partition_and_reason (rows : List DjmdContent) (ex nm : LikesMap) :
    (match_rows_to_likes rows ex nm).1 =
        rows.filterMap (fun r => (match_row r ex nm).getLeft?) ∧
    (match_rows_to_likes rows ex nm).2 =
        rows.filterMap (fun r => (match_row r ex nm).getRight?) ∧
    (match_rows_to_likes rows ex nm).1.length + (match_rows_to_likes rows ex nm).2.length =
        rows.length ∧
    (∀ r, first_exact_match (match_candidates r) ex = none →
      first_norm_match (match_candidates r) nm = none →
      match_row r ex nm =
        Sum.inr { file_path := r.FolderPath, local_title := find_local_title r,
                  reason := codes "not-found-in-likes" }) := by
  refine ⟨match_rows_to_likes_fst _ _ _, match_rows_to_likes_snd _ _ _,
    match_rows_to_likes_length _ _ _, fun r h1 h2 => ?_⟩
  unfold match_row
  rw [h1, h2]

/-- Witness for C4 at the unmatched demo record "Z". -/
theorem claim_C4_partition_and_reason_witness :
    match_row demoRowZ demoMaps.1 demoMaps.2 =
      Sum.inr { file_path := demoRowZ.FolderPath, local_title := find_local_title demoRowZ,
                reason := codes "not-found-in-likes" } :=
  (claim_C4_partition_and_reason demoRows demoMaps.1 demoMaps.2).2.2.2 demoRowZ
    (by decide) (by decide)

/-- C5: the matcher scans the fixed candidate list (record title first, then
the filename stem) against the exact map first — when any candidate hits the
exact map the outcome is `Matched` with mode "exact" built from the first
such hit, regardless of the normalized map — and only when no candidate hits
the exact map is the normalized pass consulted, with mode "normalized".
Identical inputs reproduce identical outcomes because `match_row` is a pure
function of its inputs. -/
theorem claim_C5_exact_priority (row : DjmdContent) (ex nm : LikesMap) :
    (∀ item, (match_candidates row).findSome? (dict_get ex) = some item →
      match_row row ex nm = Sum.inl
        { row := row, file_path := row.FolderPath,
          local_title := find_local_title row, sc_index := item.index,
          sc_id := item.sc_id, sc_title := item.title, sc_url := item.url,
          match_mode := codes "exact", old_created_at := row.created_at }) ∧
    ((∃ c ∈ match_candidates row, (dict_get ex c).isSome) →
      ∃ item, (match_candidates row).findSome? (dict_get ex) = some item) ∧
    ((∀ c ∈ match_candidates row, dict_get ex c = none) →
      ∀ item, (match_candidates row).findSome?
          (fun c => if normalize_title c = [] then none
            else dict_get nm (normalize_title c)) = some item →
        match_row row ex nm = Sum.inl
          { row := row, file_path := row.FolderPath,
            local_title := find_local_title row, sc_index := item.index,
            sc_id := item.sc_id, sc_title := item.title, sc_url := item.url,
            match_mode := codes "normalized", old_created_at := row.created_at }) := by
  refine ⟨fun item hitem => ?_, fun h => findSome?_isSome_of_exists _ _ h,
    fun hnone item hitem => ?_⟩
  · unfold match_row
    rw [first_exact_match_eq_findSome, hitem]
  · have hex : first_exact_match (match_candidates row) ex = none := by
      rw [first_exact_match_eq_findSome]
      exact List.findSome?_eq_none_iff.mpr hnone
    unfold match_row
    rw [hex, first_norm_match_eq_findSome, hitem]

/-- Witness for C5 at the demo record "A", whose title hits the exact map. -/
theorem claim_C5_exact_priority_witness :
    match_row demoRowA demoMaps.1 demoMaps.2 = Sum.inl
      { row := demoRowA, file_path := demoRowA.FolderPath,
        local_title := find_local_title demoRowA, sc_index := (1 : Int),
        sc_id := codes "", sc_title := codes "A", sc_url := codes "",
        match_mode := codes "exact", old_created_at := demoRowA.created_at } :=
  (claim_C5_exact_priority demoRowA demoMaps.1 demoMaps.2).1
    { index := 1, sc_id := codes "", title := codes "A", url := codes "" } (by decide)

/-- C1: for a non-empty batch sorted ascending by rank, with step ≥ 1, the
record at sorted position `p` with rank `r` is assigned
`subSecondFix(anchor) - offsetSteps * step`, where `offsetSteps` is `p` in
dense mode and `r - 1` in rankGap mode (`--use-like-index-offset`). -/
theorem claim_C1_timestamp_formula (l : List MatchRec) (anchor step : Int) (mode : Bool)
    (p : Nat) (m : MatchRec) (_hstep : 1 ≤ step) (hsorted : List.Pairwise scLe l)
    (hp : l[p]? = some m) :
    (assign_new_created_at l anchor step mode)[p]? =
      some { m with
        new_created_at :=
          some (ensure_millis_precision anchor -
            (if mode then m.sc_index - 1 else (p : Int)) * step * 1000000) } := by
  rw [assign_getElem, sort_by_sc_index_eq_self hsorted, hp, Option.map_some',
    ensure_millis_sub_whole_seconds]

/-- Witness for C1 at a two-record batch with ranks 1 and 3 in rankGap mode. -/
theorem claim_C1_timestamp_formula_witness :
    (assign_new_created_at [mkDemoMatch 1 (codes "A"), mkDemoMatch 3 (codes "C")]
        0 1 true)[1]? =
      some { mkDemoMatch 3 (codes "C") with
        new_created_at :=
          some (ensure_millis_precision 0 -
            (if true then (mkDemoMatch 3 (codes "C")).sc_index - 1 else (1 : Int)) *
              1 * 1000000) } :=
  claim_C1_timestamp_formula _ 0 1 true 1 _ (by decide) (by decide) (by decide)

/-- Decomposition of one output cell of the assignment loop. -/
theorem assign_getElem_some (l : List MatchRec) (anchor step : Int) (mode : Bool) (i : Nat)
    (m' : MatchRec) (h : (assign_new_created_at l anchor step mode)[i]? = some m') :
    ∃ m0, (sort_by_sc_index l)[i]? = some m0 ∧
      m' = { m0 with
        new_created_at := some (ensure_millis_precision anchor -
          (if mode then m0.sc_index - 1 else (i : Int)) * step * 1000000) } := by
  rw [assign_getElem] at h
  cases h0 : (sort_by_sc_index l)[i]? with
  | none => rw [h0] at h; simp at h
  | some m0 =>
    rw [h0, Option.map_some'] at h
    injection h with h
    refine ⟨m0, rfl, ?_⟩
    rw [← h, ensure_millis_sub_whole_seconds]

/-- C2 counterexample: with two records both matched to the rank-1 entry,
dense mode assigns the second of them `subSecondFix(anchor) - step`, not
`subSecondFix(anchor)`, although its reference rank is 1 and step is 1 ≥ 1. -/
theorem claim_C2_counterexample :
    (assign_new_created_at [mkDemoMatch 1 (codes "A"), mkDemoMatch 1 (codes "B")]
        0 1 false)[1]? =
      some { mkDemoMatch 1 (codes "B") with new_created_at := some (-100000) } ∧
    (mkDemoMatch 1 (codes "B")).sc_index = 1 ∧
    ((-100000 : Int) ≠ ensure_millis_precision 0) :=
  ⟨by decide, by decide, by decide⟩

/-- C2 (amended): for step ≥ 1 and reference ranks ≥ 1: in rankGap mode every
rank-1 record is assigned exactly `subSecondFix(anchor)`; in dense mode the
same holds provided at most one matched record has rank 1; and in both modes,
of two records with differing ranks the one with the larger rank receives a
strictly earlier timestamp. -/
theorem claim_C2_anchor_offset_and_monotonicity (l : List MatchRec) (anchor step : Int)
    (hstep : 1 ≤ step) (hranks : ∀ m ∈ l, 1 ≤ m.sc_index) :
    (∀ (i : Nat) (m' : MatchRec),
        (assign_new_created_at l anchor step true)[i]? = some m' →
        m'.sc_index = 1 → m'.new_created_at = some (ensure_millis_precision anchor)) ∧
    (List.countP (fun m => m.sc_index == 1) l ≤ 1 →
      ∀ (i : Nat) (m' : MatchRec),
        (assign_new_created_at l anchor step false)[i]? = some m' →
        m'.sc_index = 1 → m'.new_created_at = some (ensure_millis_precision anchor)) ∧
    (∀ (mode : Bool) (i j : Nat) (mi mj : MatchRec) (ti tj : Int),
        (assign_new_created_at l anchor step mode)[i]? = some mi →
        (assign_new_created_at l anchor step mode)[j]? = some mj →
        mi.sc_index < mj.sc_index →
        mi.new_created_at = some ti → mj.new_created_at = some tj →
        tj < ti) := by
  have hsorted := sort_by_sc_index_sorted l
  have hperm := sort_by_sc_index_perm l
  refine ⟨?_, ?_, ?_⟩
  · intro i m' h hm1
    obtain ⟨m0, h0, rfl⟩ := assign_getElem_some l anchor step true i m' h
    have hm0 : m0.sc_index = 1 := hm1
    simp [hm0]
  · intro hcount i m' h hm1
    obtain ⟨m0, h0, rfl⟩ := assign_getElem_some l anchor step false i m' h
    have hm0 : m0.sc_index = 1 := hm1
    have hi0 : i = 0 := by
      rcases Nat.eq_zero_or_pos i with h' | h'
      · exact h'
      · exfalso
        cases hsl : sort_by_sc_index l with
        | nil => rw [hsl] at h0; simp at h0
        | cons hd tl =>
          rw [hsl] at h0
          rw [List.getElem?_cons, if_neg (by omega)] at h0
          have hm0tl : m0 ∈ tl := List.getElem?_mem h0
          have hhdle : scLe hd m0 := by
            rw [hsl] at hsorted
            exact List.rel_of_pairwise_cons hsorted hm0tl
          have hhd1 : 1 ≤ hd.sc_index := by
            refine hranks hd (hperm.mem_iff.mp ?_)
            rw [hsl]
            exact List.mem_cons_self hd tl
          have hhd : hd.sc_index = 1 := by
            unfold scLe at hhdle
            omega
          have h2 : 2 ≤ List.countP (fun m => m.sc_index == 1) (sort_by_sc_index l) := by
            rw [hsl, List.countP_cons]
            have hpos : 0 < List.countP (fun m => m.sc_index == 1) tl :=
              List.countP_pos_iff.mpr ⟨m0, hm0tl, by simp [hm0]⟩
            have hhdp : (fun m : MatchRec => m.sc_index == 1) hd = true := by simp [hhd]
            rw [if_pos hhdp]
            omega
          rw [hperm.countP_eq] at h2
          omega
    subst hi0
    simp
  · intro mode i j mi mj ti tj hi hj hij hti htj
    obtain ⟨mi0, hi0, rfl⟩ := assign_getElem_some l anchor step mode i mi hi
    obtain ⟨mj0, hj0, rfl⟩ := assign_getElem_some l anchor step mode j mj hj
    have hsci : mi0.sc_index < mj0.sc_index := hij
    have hti' : ti = ensure_millis_precision anchor -
        (if mode then mi0.sc_index - 1 else (i : Int)) * step * 1000000 :=
      (Option.some_inj.mp hti).symm
    have htj' : tj = ensure_millis_precision anchor -
        (if mode then mj0.sc_index - 1 else (j : Int)) * step * 1000000 :=
      (Option.some_inj.mp htj).symm
    have hoff : (if mode then mi0.sc_index - 1 else (i : Int)) <
        (if mode then mj0.sc_index - 1 else (j : Int)) := by
      cases mode with
      | true =>
        show mi0.sc_index - 1 < mj0.sc_index - 1
        omega
      | false =>
        show (i : Int) < (j : Int)
        obtain ⟨hbi, hei⟩ := List.getElem?_eq_some_iff.mp hi0
        obtain ⟨hbj, hej⟩ := List.getElem?_eq_some_iff.mp hj0
        have hij2 : i < j := by
          rcases lt_trichotomy i j with h' | h' | h'
          · exact h'
          · exfalso
            subst h'
            rw [hi0] at hj0
            injection hj0 with e
            rw [e] at hsci
            omega
          · exfalso
            have hp := List.pairwise_iff_getElem.mp hsorted j i hbj hbi h'
            rw [hei, hej] at hp
            unfold scLe at hp
            omega
        exact_mod_cast hij2
    have hstep6 : (0 : Int) < step * 1000000 := by omega
    have hlt : (if mode then mi0.sc_index - 1 else (i : Int)) * step * 1000000 <
        (if mode then mj0.sc_index - 1 else (j : Int)) * step * 1000000 := by
      rw [mul_assoc, mul_assoc]
      exact mul_lt_mul_of_pos_right hoff hstep6
    rw [hti', htj']
    linarith

/-- Witness for C2 at a two-record batch with ranks 1 and 2 in rankGap mode:
the rank-1 record gets exactly `subSecondFix(0)`. -/
theorem claim_C2_anchor_offset_and_monotonicity_witness :
    ({ mkDemoMatch 1 (codes "A") with new_created_at := some 900000 } : MatchRec).new_created_at =
      some (ensure_millis_precision 0) :=
  (claim_C2_anchor_offset_and_monotonicity
      [mkDemoMatch 1 (codes "A"), mkDemoMatch 2 (codes "B")] 0 1
      (by decide) (by decide)).1 0
    { mkDemoMatch 1 (codes "A") with new_created_at := some 900000 } (by decide) (by decide)

/-- C10: every assigned timestamp has a non-zero microsecond component; it is
exactly 900000 whenever the anchor fell on a whole second, because the
sub-second fix is applied to the anchor, is preserved by whole-second offsets,
and the second application of the fix is the identity there. -/
theorem claim_C10_subsecond_component (l : List MatchRec) (anchor step : Int) (mode : Bool)
    (m : MatchRec) (hm : m ∈ assign_new_created_at l anchor step mode) :
    ∃ t, m.new_created_at = some t ∧ t % 1000000 ≠ 0 ∧
      (anchor % 1000000 = 0 → t % 1000000 = 900000) := by
  have hm' : m ∈ (sort_by_sc_index l).enum.map
      (fun pm => { pm.2 with
        new_created_at := some (ensure_millis_precision
          (ensure_millis_precision anchor -
            (if mode then pm.2.sc_index - 1 else (pm.1 : Int)) * step * 1000000)) }) := hm
  obtain ⟨pm, hpm, rfl⟩ := List.mem_map.mp hm'
  have hK := ensure_millis_sub_whole_seconds anchor
    ((if mode then pm.2.sc_index - 1 else (pm.1 : Int)) * step)
  refine ⟨ensure_millis_precision anchor -
      (if mode then pm.2.sc_index - 1 else (pm.1 : Int)) * step * 1000000, ?_, ?_, ?_⟩
  · exact congrArg some (by rw [mul_assoc] at hK ⊢; exact hK)
  · have h1 := ensure_millis_emod anchor
    generalize (if mode then pm.2.sc_index - 1 else (pm.1 : Int)) * step = K
    generalize ensure_millis_precision anchor = A at h1
    omega
  · intro h0
    have hA : ensure_millis_precision anchor = anchor + 900000 := by
      unfold ensure_millis_precision
      rw [if_pos h0]
    rw [hA]
    generalize (if mode then pm.2.sc_index - 1 else (pm.1 : Int)) * step = K
    omega

/-- Witness for C10 at a one-record batch with anchor 0. -/
theorem claim_C10_subsecond_component_witness :
    ∃ t,
      ({ mkDemoMatch 1 (codes "A") with new_created_at := some 900000 } : MatchRec).new_created_at =
          some t ∧
        t % 1000000 ≠ 0 ∧ ((0 : Int) % 1000000 = 0 → t % 1000000 = 900000) :=
  claim_C10_subsecond_component [mkDemoMatch 1 (codes "A")] 0 1 true
    { mkDemoMatch 1 (codes "A") with new_created_at := some 900000 } (by decide)

end SetRbDateAdded
